import Mathlib

/-!
Verification of the Huber atom (`cvxpy/atoms/elementwise/huber.py`).

The development has two layers:

* a real-valued semantic layer embedding `huber.numeric` (the scalar map
  behind `2*scipy.special.huber(M, x)`), the subgradient values of
  `huber._grad`, and the infimal-convolution characterisation realised by
  `huber.graph_implementation`;
* a symbolic layer embedding the expression/atom data model: the sign,
  curvature and monotonicity oracles, `validate_arguments`, `get_data`,
  the constructor, and the `LinOp`-level `graph_implementation`.
-/

namespace Huber

/-! ## Semantic layer -/

variable {α : Type*} [LinearOrderedField α]

/-- Scalar Huber loss of `scipy.special.huber(M, x)` on the validated
domain `M ≥ 0`: `x²/2` when `|x| ≤ M`, else `M*(|x| - M/2)`.  (This embeds
the external `scipy` dependency; outside the validated domain, `M < 0`,
scipy returns `inf`, which no claim touches.)  Stated over any linear
ordered field so that it is executable at `ℚ` and provable at `ℝ`. -/
def scipy_huber (M x : α) : α :=
  if |x| ≤ M then x ^ 2 / 2 else M * (|x| - M / 2)

/-- `huber.numeric` on one scalar entry: the source returns
`2*scipy.special.huber(self.M.value, values[0])` elementwise. -/
def numeric (M x : α) : α := 2 * scipy_huber M x

/-- `huber.numeric` on a vector of entries: scipy broadcasts the scalar
`M` and applies the scalar function independently to each element. -/
def numeric_vec (M : α) (xs : List α) : List α :=
  xs.map (numeric M)

lemma numeric_of_abs_le {M x : α} (h : |x| ≤ M) : numeric M x = x ^ 2 := by
  simp only [numeric, scipy_huber, if_pos h]
  ring

lemma numeric_of_lt_abs {M x : α} (h : M < |x|) :
    numeric M x = 2 * M * |x| - M ^ 2 := by
  simp only [numeric, scipy_huber, if_neg (not_le.mpr h)]
  ring

/-- Lower bound half of the epigraph reduction: every feasible split
`n + s = x` gives objective value at least `numeric M x`. -/
lemma numeric_le_split (M x n s : α) (hM : 0 ≤ M) (hns : n + s = x) :
    numeric M x ≤ n ^ 2 + 2 * M * |s| := by
  subst hns
  rcases le_or_lt |n + s| M with hx | hx
  · rw [numeric_of_abs_le hx]
    have hxs : (n + s) * s ≤ |n + s| * |s| :=
      (le_abs_self ((n + s) * s)).trans_eq (abs_mul (n + s) s)
    nlinarith [abs_nonneg s, mul_le_mul_of_nonneg_right hx (abs_nonneg s),
      sq_nonneg s]
  · rw [numeric_of_lt_abs hx]
    have htri : |n + s| ≤ |n| + |s| := abs_add n s
    nlinarith [sq_abs n, sq_nonneg (|n| - M),
      mul_le_mul_of_nonneg_left htri hM]

/-- Attainment half: the split `n = clamp(x, [-M, M])`, `s = x - n`
achieves objective value exactly `numeric M x`. -/
lemma numeric_attained (M x : α) :
    ∃ n s, n + s = x ∧ numeric M x = n ^ 2 + 2 * M * |s| := by
  rcases le_or_lt |x| M with hx | hx
  · exact ⟨x, 0, by ring, by rw [numeric_of_abs_le hx]; simp⟩
  · rcases le_or_lt 0 x with hx0 | hx0
    · have hxM : M < x := by rwa [abs_of_nonneg hx0] at hx
      refine ⟨M, x - M, by ring, ?_⟩
      rw [numeric_of_lt_abs hx, abs_of_nonneg hx0,
        abs_of_nonneg (by linarith : (0:α) ≤ x - M)]
      ring
    · have hxM : x < -M := by
        rw [abs_of_neg hx0] at hx; linarith
      refine ⟨-M, x + M, by ring, ?_⟩
      rw [numeric_of_lt_abs hx, abs_of_neg hx0,
        abs_of_neg (by linarith : x + M < 0)]
      ring

/-! ## Symbolic expression layer -/

/-- Leaf kind of an expression in the DSL, distinguishing resolved
constants, `Parameter` leaves (needed for the `isinstance(M, Parameter)`
branch of `graph_implementation`), free variables and anything else. -/
inductive ExprKind where
  | constant
  | parameter
  | freeVar
  | other
  deriving DecidableEq, Repr

/-- Modelled from the spec: the expression base class (not under src/)
carries a declared sign, a constancy flag implied by its kind, a shape,
and — for resolved constants — a numeric value. -/
structure Expr where
  kind : ExprKind
  nonneg : Bool
  nonpos : Bool
  shape : List Nat
  value : ℚ
  deriving DecidableEq, Repr

/-- Modelled from the spec: `is_nonneg` reports the declared
known-nonnegative sign of an expression. -/
def Expr.is_nonneg (e : Expr) : Bool := e.nonneg

/-- Modelled from the spec: `is_nonpos` reports the declared
known-nonpositive sign of an expression. -/
def Expr.is_nonpos (e : Expr) : Bool := e.nonpos

/-- Modelled from the spec: `is_constant` holds for expressions that are
constant-valued at analysis time — resolved constants and parameters —
and fails for free optimization variables. -/
def Expr.is_constant (e : Expr) : Bool :=
  e.kind = ExprKind.constant ∨ e.kind = ExprKind.parameter

/-- Modelled from the spec: `is_scalar` holds when the shape has degree
zero. -/
def Expr.is_scalar (e : Expr) : Bool := e.shape = []

/-- A resolved scalar constant expression with the sign computed from its
value. -/
def constExpr (v : ℚ) : Expr :=
  ⟨ExprKind.constant, decide (0 ≤ v), decide (v ≤ 0), [], v⟩

/-- The raw `M` argument of `huber.__init__`: a number (`int/float`) or an
already-built expression. -/
inductive NumOrExpr where
  | num (v : ℚ)
  | expr (e : Expr)
  deriving DecidableEq, Repr

/-- Modelled from the spec: `cast_to_const` (base class, not under src/)
wraps a raw number into a constant expression and leaves expressions
unchanged. -/
def cast_to_const : NumOrExpr → Expr
  | NumOrExpr.num v => constExpr v
  | NumOrExpr.expr e => e

/-- The Huber atom instance: its ordered argument list and the bound
parameter `M` (already cast to an expression by the constructor). -/
structure huber where
  args : List Expr
  M : Expr
  deriving DecidableEq, Repr

/-- `huber.__init__` with an explicit `M` argument: stores
`cast_to_const(M)` and the single argument `x`. -/
def huber.init (x : Expr) (M : NumOrExpr) : huber :=
  ⟨[x], cast_to_const M⟩

/-- `huber.__init__` with the `M` argument omitted: the source default is
`M=1`. -/
def huber.initDefault (x : Expr) : huber :=
  huber.init x (NumOrExpr.num 1)

/-- `huber.sign_from_args`: always `(is positive, is negative) = (True,
False)`. -/
def huber.sign_from_args (_a : huber) : Bool × Bool := (true, false)

/-- `huber.is_atom_convex`: always `True`. -/
def huber.is_atom_convex (_a : huber) : Bool := true

/-- `huber.is_atom_concave`: always `False`. -/
def huber.is_atom_concave (_a : huber) : Bool := false

/-- `huber.is_incr`: `self.args[idx].is_nonneg()`. -/
def huber.is_incr (a : huber) (idx : Nat) : Bool :=
  (a.args.getD idx (constExpr 0)).is_nonneg

/-- `huber.is_decr`: `self.args[idx].is_nonpos()`. -/
def huber.is_decr (a : huber) (idx : Nat) : Bool :=
  (a.args.getD idx (constExpr 0)).is_nonpos

/-- `huber.get_data`: returns `[self.M]`. -/
def huber.get_data (a : huber) : List Expr := [a.M]

/-- `huber.validate_arguments`: raises unless `M` is nonnegative, constant
and scalar; the raise is embedded as `Except.error` with the source
message. -/
def huber.validate_arguments (a : huber) : Except String Unit :=
  if ¬(a.M.is_nonneg ∧ a.M.is_constant ∧ a.M.is_scalar) then
    Except.error "M must be a non-negative scalar constant."
  else
    Except.ok ()

/-- Modelled from the spec: the atom base-class constructor (not under
src/) runs `validate_arguments` once at construction, before the atom is
usable anywhere else; on failure the error propagates and no atom is
produced. -/
def huber.construct (x : Expr) (M : NumOrExpr) : Except String huber :=
  let a := huber.init x M
  match a.validate_arguments with
  | Except.ok _ => Except.ok a
  | Except.error msg => Except.error msg

/-! ## LinOp graph layer -/

/-- A linear-operator expression node of `cvxpy.lin_ops`, as built by the
`lu.*` helpers used in `huber.graph_implementation`.  `atomApp` is the
affine handle returned by a sub-reduction of another atom. -/
inductive LinOp where
  | varOp (id : Nat) (shape : List Nat)
  | constOp (value : ℚ) (shape : List Nat)
  | paramOp (p : Expr) (shape : List Nat)
  | mulOp (lhs rhs : LinOp)
  | sumOp (terms : List LinOp)
  | atomApp (name : String) (args : List LinOp) (shape : List Nat)

/-- A constraint node: an equality between linear expressions, or the
opaque constraint block emitted by a sub-reduction of another atom. -/
inductive LinConstr where
  | eqCon (lhs rhs : LinOp)
  | atomCon (name : String) (args : List LinOp) (shape : List Nat)

/-- `lu.create_var` with the ambient global id counter made explicit, as
the spec directs for fresh-variable allocation: returns the fresh variable
and the advanced counter. -/
def create_var (shape : List Nat) (ctr : Nat) : LinOp × Nat :=
  (LinOp.varOp ctr shape, ctr + 1)

/-- `lu.create_const`. -/
def create_const (v : ℚ) (shape : List Nat) : LinOp := LinOp.constOp v shape

/-- `lu.create_param`: a symbolic reference to the parameter expression. -/
def create_param (p : Expr) (shape : List Nat) : LinOp := LinOp.paramOp p shape

/-- `lu.mul_expr`. -/
def mul_expr (lhs rhs : LinOp) : LinOp := LinOp.mulOp lhs rhs

/-- `lu.sum_expr`. -/
def sum_expr (terms : List LinOp) : LinOp := LinOp.sumOp terms

/-- `lu.create_eq`. -/
def create_eq (lhs rhs : LinOp) : LinConstr := LinConstr.eqCon lhs rhs

/-- Modelled from the spec: `power.graph_implementation` (its source file
is not under src/) sub-reduces the square primitive applied to `n`,
yielding an affine expression for the square and its own constraint
list. -/
def power_graph_impl (arg_objs : List LinOp) (shape : List Nat) :
    LinOp × List LinConstr :=
  (LinOp.atomApp "square" arg_objs shape,
   [LinConstr.atomCon "square" arg_objs shape])

/-- Modelled from the spec: `abs.graph_implementation` (its source file is
not under src/) sub-reduces the absolute-value primitive applied to `s`,
yielding an affine expression and its own constraint list. -/
def abs_graph_impl (arg_objs : List LinOp) (shape : List Nat) :
    LinOp × List LinConstr :=
  (LinOp.atomApp "abs" arg_objs shape,
   [LinConstr.atomCon "abs" arg_objs shape])

/-- `huber.graph_implementation`: creates the auxiliary variables `n`, `s`
with the output shape, branches on whether `M` is a `Parameter` leaf or a
resolved constant, builds the objective `n² + 2·M·|s|` from the `square`
and `abs` sub-reductions, and appends the linking equality `x = n + s`
after the concatenated sub-reduction constraints.  The ambient variable-id
counter is explicit. -/
def graph_implementation (arg_objs : List LinOp) (shape : List Nat)
    (data : List Expr) (ctr : Nat) : (LinOp × List LinConstr) × Nat :=
  let M := data.getD 0 (constExpr 0)
  let x := arg_objs.getD 0 (LinOp.constOp 0 shape)
  let (n, ctr1) := create_var shape ctr
  let (s, ctr2) := create_var shape ctr1
  let two := create_const 2 [1, 1]
  let Mt := if M.kind = ExprKind.parameter then create_param M [1, 1]
            else create_const M.value [1, 1]
  let (n2, constr_sq) := power_graph_impl [n] shape
  let (abs_s, constr_abs) := abs_graph_impl [s] shape
  let M_abs_s := mul_expr Mt abs_s
  let obj := sum_expr [n2, mul_expr two M_abs_s]
  let constraints := constr_sq ++ constr_abs ++ [create_eq x (sum_expr [n, s])]
  ((obj, constraints), ctr2)

/-! ## Subgradient layer -/

/-- `np.sign` on one scalar. -/
def np_sign (x : α) : α := if x < 0 then -1 else if 0 < x then 1 else 0

/-- The scalar entry of `huber._grad`:
`2*np.multiply(np.sign(values[0]), np.minimum(np.abs(values[0]), M))`. -/
def grad_val (M x : α) : α := 2 * (np_sign x * min |x| M)

/-- `huber._grad`: one sparse matrix per argument; for the single argument
the matrix is (modelled from the spec, since the base-class helper
`elemwise_grad_to_diag` is not under src/) the diagonal matrix of the
elementwise gradient values, row `j` holding the derivative of output
element `j` with respect to argument element `k` in column `k`. -/
def grad (M : α) (values : List α) :
    List (Matrix (Fin values.length) (Fin values.length) α) :=
  [Matrix.diagonal (fun j => grad_val M (values.get j))]

/-! ## Helper lemmas -/

lemma numeric_nonneg {M x : α} (hM : 0 ≤ M) : 0 ≤ numeric M x := by
  rcases le_or_lt |x| M with hx | hx
  · rw [numeric_of_abs_le hx]; positivity
  · rw [numeric_of_lt_abs hx]
    nlinarith [abs_nonneg x]

lemma numeric_convexOn {M : ℝ} (hM : 0 ≤ M) :
    ConvexOn ℝ Set.univ (fun x => numeric M x) := by
  refine ⟨convex_univ, fun a _ b _ p q hp hq hpq => ?_⟩
  simp only [smul_eq_mul]
  obtain ⟨na, sa, hna, hfa⟩ := numeric_attained M a
  obtain ⟨nb, sb, hnb, hfb⟩ := numeric_attained M b
  have key := numeric_le_split M (p * a + q * b) (p * na + q * nb)
    (p * sa + q * sb) hM (by rw [← hna, ← hnb]; ring)
  have habs : |p * sa + q * sb| ≤ p * |sa| + q * |sb| := by
    calc |p * sa + q * sb| ≤ |p * sa| + |q * sb| := abs_add _ _
    _ = p * |sa| + q * |sb| := by
        rw [abs_mul, abs_mul, abs_of_nonneg hp, abs_of_nonneg hq]
  have hsq : (p * na + q * nb) ^ 2 ≤ p * na ^ 2 + q * nb ^ 2 := by
    nlinarith [mul_nonneg (mul_nonneg hp hq) (sq_nonneg (na - nb))]
  have habs2 : 2 * M * |p * sa + q * sb| ≤ 2 * M * (p * |sa| + q * |sb|) :=
    mul_le_mul_of_nonneg_left habs (by linarith)
  rw [hfa, hfb]
  nlinarith [key]

lemma np_sign_mul_abs (x : α) : np_sign x * |x| = x := by
  rcases lt_trichotomy x 0 with hx | hx | hx
  · rw [np_sign, if_pos hx, abs_of_neg hx]; ring
  · simp [np_sign, hx]
  · rw [np_sign, if_neg (not_lt.mpr hx.le), if_pos hx, abs_of_pos hx]; ring

lemma grad_val_of_abs_lt {M x : α} (h : |x| < M) : grad_val M x = 2 * x := by
  rw [grad_val, min_eq_left h.le, np_sign_mul_abs]

lemma grad_val_of_lt_abs {M x : α} (h : M < |x|) :
    grad_val M x = 2 * M * np_sign x := by
  rw [grad_val, min_eq_right h.le]; ring

/-! ## Claim theorems -/

/-- C2: for every scalar `x` and `M ≥ 0`, `evaluate(x, M)` is `x²` when
`|x| ≤ M` and `2M|x| − M²` when `|x| > M`, applied independently to every
element of a vector argument with `M` broadcast as a scalar; the two
branches agree at `|x| = M`. -/
theorem C2_numeric_branches (M x : ℝ) (_hM : 0 ≤ M) :
    (|x| ≤ M → numeric M x = x ^ 2) ∧
    (M < |x| → numeric M x = 2 * M * |x| - M ^ 2) ∧
    (|x| = M → x ^ 2 = 2 * M * |x| - M ^ 2) ∧
    (∀ xs : List ℝ, (numeric_vec M xs).length = xs.length ∧
      ∀ i : ℕ, i < xs.length →
        (numeric_vec M xs).getD i 0 = numeric M (xs.getD i 0)) := by
  refine ⟨fun h => numeric_of_abs_le h, fun h => numeric_of_lt_abs h,
    fun h => ?_, fun xs => ⟨by simp [numeric_vec], fun i hi => ?_⟩⟩
  · have hx2 : x ^ 2 = M ^ 2 := by rw [← sq_abs, h]
    rw [hx2, h]; ring
  · have hi2 : i < (numeric_vec M xs).length := by simpa [numeric_vec] using hi
    rw [List.getD_eq_get _ 0 hi2, List.getD_eq_get _ 0 hi]
    simp [numeric_vec]

/-- C2 witness: the branch hypotheses discharged at `x = 1/2`, `M = 1`
and at `x = 3`, `M = 1`. -/
theorem C2_numeric_branches_witness :
    numeric (1 : ℝ) (1 / 2) = (1 / 2 : ℝ) ^ 2 ∧
      numeric (1 : ℝ) 3 = 2 * 1 * |(3 : ℝ)| - 1 ^ 2 :=
  ⟨(C2_numeric_branches 1 (1 / 2) (by norm_num)).1
      (by rw [abs_of_nonneg] <;> norm_num),
    (C2_numeric_branches 1 3 (by norm_num)).2.1
      (by rw [abs_of_nonneg] <;> norm_num)⟩

/-- C6: `is_incr i` returns exactly the declared known-nonnegative sign of
argument `i`, `is_decr i` returns exactly its declared known-nonpositive
sign, and when the sign is unknown (neither flag set) both return
`false`. -/
theorem C6_monotonicity (a : huber) (i : ℕ) (h : i < a.args.length) :
    (a.is_incr i = (a.args.get ⟨i, h⟩).is_nonneg) ∧
    (a.is_decr i = (a.args.get ⟨i, h⟩).is_nonpos) ∧
    ((a.args.get ⟨i, h⟩).is_nonneg = false →
      (a.args.get ⟨i, h⟩).is_nonpos = false →
      a.is_incr i = false ∧ a.is_decr i = false) := by
  have h1 : a.is_incr i = (a.args.get ⟨i, h⟩).is_nonneg := by
    rw [huber.is_incr, List.getD_eq_get _ _ h]
  have h2 : a.is_decr i = (a.args.get ⟨i, h⟩).is_nonpos := by
    rw [huber.is_decr, List.getD_eq_get _ _ h]
  exact ⟨h1, h2, fun hn hp => ⟨h1.trans hn, h2.trans hp⟩⟩

/-- C6 witness: the atom `huber(x)` with `x` a nonnegative constant has
`is_incr 0 = true` and `is_decr 0` mirroring the nonpositive flag. -/
theorem C6_monotonicity_witness :
    (huber.init (constExpr 1) (NumOrExpr.num 1)).is_incr 0 =
      ((huber.init (constExpr 1) (NumOrExpr.num 1)).args.get
        ⟨0, by simp [huber.init]⟩).is_nonneg :=
  (C6_monotonicity (huber.init (constExpr 1) (NumOrExpr.num 1)) 0
    (by simp [huber.init])).1

/-- C7: `is_atom_convex` is unconditionally `true`, `is_atom_concave`
unconditionally `false`, and this is mathematically consistent: for each
fixed `M ≥ 0` the numeric Huber function is convex in its argument. -/
theorem C7_convexity :
    (∀ a : huber, a.is_atom_convex = true ∧ a.is_atom_concave = false) ∧
    (∀ M : ℝ, 0 ≤ M → ConvexOn ℝ Set.univ (fun x => numeric M x)) :=
  ⟨fun _ => ⟨rfl, rfl⟩, fun _ hM => numeric_convexOn hM⟩

/-- C7 witness: convexity instantiated at `M = 1`. -/
theorem C7_convexity_witness :
    ConvexOn ℝ Set.univ (fun x : ℝ => numeric 1 x) :=
  C7_convexity.2 1 (by norm_num)

/-- C8: `sign_from_args` is `(True, False)` independently of the
arguments, and soundly so: `numeric M x ≥ 0` whenever `M ≥ 0`. -/
theorem C8_sign (M x : ℝ) (hM : 0 ≤ M) :
    (∀ a : huber, a.sign_from_args = (true, false)) ∧ 0 ≤ numeric M x :=
  ⟨fun _ => rfl, numeric_nonneg hM⟩

/-- C8 witness: nonnegativity at `x = -3`, `M = 1`. -/
theorem C8_sign_witness : 0 ≤ numeric (1 : ℝ) (-3) :=
  (C8_sign 1 (-3) (by norm_num)).2

/-- C10: omitting the parameter defaults `M` to the constant `1`; a raw
number is cast to a constant expression at construction; `get_data` (and
hence every later consumer) sees `M` as the cast expression object. -/
theorem C10_default_and_cast :
    (∀ x : Expr, (huber.initDefault x).M = constExpr 1 ∧
      (huber.initDefault x).M.kind = ExprKind.constant) ∧
    (∀ (x : Expr) (v : ℚ),
      (huber.init x (NumOrExpr.num v)).M = constExpr v ∧
      (huber.init x (NumOrExpr.num v)).M.kind = ExprKind.constant) ∧
    (∀ (x : Expr) (m : NumOrExpr),
      (huber.init x m).M = cast_to_const m ∧
      (huber.init x m).get_data = [cast_to_const m]) :=
  ⟨fun _ => ⟨rfl, rfl⟩, fun _ _ => ⟨rfl, rfl⟩, fun _ _ => ⟨rfl, rfl⟩⟩

/-- A free-variable `M` used for the validation counterexamples: declared
nonnegative and scalar but not constant-valued. -/
def freeVarM : Expr := ⟨ExprKind.freeVar, true, false, [], 0⟩

/-- A non-scalar constant `M` used for the validation counterexamples:
nonnegative and constant but of shape `[2]`. -/
def nonScalarM : Expr := ⟨ExprKind.constant, true, false, [2], 1⟩

/-- C1 counterexample: the split `(n, s) = (-1, 2)` asserted by the claim
as a minimizer for `x = 3`, `M = 1` is not even feasible — `-1 + 2 ≠ 3` —
so the minimum is not attained there, even though the claimed value
matches `numeric 1 3`. -/
theorem C1_counterexample :
    ¬ ((-1 : ℝ) + 2 = 3 ∧
      numeric (1 : ℝ) 3 = (-1 : ℝ) ^ 2 + 2 * 1 * |(2 : ℝ)|) := by
  rintro ⟨h, -⟩
  norm_num at h

/-- C1 (amended: for `x = 3`, `M = 1` the minimum is attained at
`n = 1, s = 2`, not at `n = ±1`): for `M ≥ 0` the value `numeric M x` is
the least objective value `n² + 2M|s|` over feasible splits `n + s = x`;
for `x = 3, M = 1` the minimum is `5`, attained at the feasible split
`(1, 2)`; for `x = 1/2, M = 1` it is `1/4`, attained at `(1/2, 0)`. -/
theorem C1_reduction_round_trip :
    (∀ M x : ℝ, 0 ≤ M →
      IsLeast {v : ℝ | ∃ n s : ℝ, n + s = x ∧ v = n ^ 2 + 2 * M * |s|}
        (numeric M x)) ∧
    numeric (1 : ℝ) 3 = 5 ∧ (1 : ℝ) + 2 = 3 ∧
    (5 : ℝ) = 1 ^ 2 + 2 * 1 * |(2 : ℝ)| ∧
    numeric (1 : ℝ) (1 / 2) = 1 / 4 ∧ (1 / 2 : ℝ) + 0 = 1 / 2 ∧
    (1 / 4 : ℝ) = (1 / 2 : ℝ) ^ 2 + 2 * 1 * |(0 : ℝ)| := by
  have h3 : |(3 : ℝ)| = 3 := abs_of_nonneg (by norm_num)
  have h2 : |(2 : ℝ)| = 2 := abs_of_nonneg (by norm_num)
  refine ⟨fun M x hM => ⟨numeric_attained M x, ?_⟩, ?_, by norm_num,
    by rw [h2]; norm_num, ?_, by norm_num, by simp; norm_num⟩
  · rintro v ⟨n, s, hns, rfl⟩
    exact numeric_le_split M x n s hM hns
  · rw [numeric_of_lt_abs (by rw [h3]; norm_num), h3]; norm_num
  · rw [numeric_of_abs_le (by rw [abs_of_nonneg] <;> norm_num)]; norm_num

/-- C1 witness: the least-value characterisation instantiated at
`M = 1`, `x = 3`. -/
theorem C1_reduction_round_trip_witness :
    IsLeast {v : ℝ | ∃ n s : ℝ, n + s = 3 ∧ v = n ^ 2 + 2 * 1 * |s|}
      (numeric (1 : ℝ) 3) :=
  C1_reduction_round_trip.1 1 3 (by norm_num)

/-- C3: `graph_implementation` on argument handle `x`, output shape and
data `[M]` allocates exactly the two fresh distinct auxiliary variables
`n`, `s` with the output shape (advancing the allocator by two), embeds
`M` symbolically when it is a `Parameter` and as a 1×1 literal constant
otherwise, and returns the objective `n² + 2·M·|s|` with constraints
`C_sq ++ C_abs ++ [x = n + s]` in exactly that order. -/
theorem C3_graph_implementation (x : LinOp) (shape : List ℕ) (M : Expr)
    (ctr : ℕ) :
    graph_implementation [x] shape [M] ctr =
      ((sum_expr [(power_graph_impl [LinOp.varOp ctr shape] shape).1,
          mul_expr (create_const 2 [1, 1])
            (mul_expr
              (if M.kind = ExprKind.parameter then create_param M [1, 1]
               else create_const M.value [1, 1])
              (abs_graph_impl [LinOp.varOp (ctr + 1) shape] shape).1)],
        (power_graph_impl [LinOp.varOp ctr shape] shape).2 ++
          (abs_graph_impl [LinOp.varOp (ctr + 1) shape] shape).2 ++
          [create_eq x
            (sum_expr [LinOp.varOp ctr shape, LinOp.varOp (ctr + 1) shape])]),
        ctr + 2) ∧
    LinOp.varOp ctr shape ≠ LinOp.varOp (ctr + 1) shape := by
  refine ⟨rfl, fun h => ?_⟩
  injection h with h1 _
  omega

/-- C4: validation rejects — with the error message of the source — exactly
when `M` is not simultaneously nonnegative, constant and scalar; the
constructor runs the check before yielding an atom, so on failure no atom
is produced; and `M = -1`, a free (non-constant) `M`, and a non-scalar
`M` each fail. -/
theorem C4_validation :
    (∀ a : huber,
      (a.validate_arguments = Except.ok () ↔
        (a.M.is_nonneg ∧ a.M.is_constant ∧ a.M.is_scalar)) ∧
      (a.validate_arguments =
          Except.error "M must be a non-negative scalar constant." ↔
        ¬(a.M.is_nonneg ∧ a.M.is_constant ∧ a.M.is_scalar))) ∧
    (∀ (x : Expr) (m : NumOrExpr),
      ((∃ a, huber.construct x m = Except.ok a) ↔
        (huber.init x m).validate_arguments = Except.ok ()) ∧
      (∀ a, huber.construct x m = Except.ok a → a = huber.init x m)) ∧
    (∀ x : Expr,
      huber.construct x (NumOrExpr.num (-1)) =
        Except.error "M must be a non-negative scalar constant." ∧
      huber.construct x (NumOrExpr.expr freeVarM) =
        Except.error "M must be a non-negative scalar constant." ∧
      huber.construct x (NumOrExpr.expr nonScalarM) =
        Except.error "M must be a non-negative scalar constant.") := by
  refine ⟨fun a => ?_, fun x m => ?_, fun x => ⟨rfl, rfl, rfl⟩⟩
  · by_cases hc : (a.M.is_nonneg ∧ a.M.is_constant ∧ a.M.is_scalar)
    · rw [huber.validate_arguments, if_neg (not_not_intro hc)]
      simp [hc]
    · rw [huber.validate_arguments, if_pos hc]
      simp [hc]
  · cases hv : (huber.init x m).validate_arguments with
    | ok u =>
      cases u
      constructor
      · simp [huber.construct, hv]
      · intro a ha
        rw [huber.construct] at ha
        simp only [hv] at ha
        exact (Except.ok.injEq _ _).mp ha.symm
    | error e =>
      constructor
      · simp [huber.construct, hv]
      · intro a ha
        rw [huber.construct] at ha
        simp only [hv] at ha
        cases ha

/-- C9: `M = 0` is not an error: construction with `M = 0` passes the
validation gate; the reduction produces the general objective with the
literal coefficient `0` (no special-casing); and the numeric function and
the reduced minimum at `M = 0` follow the general formulas, both
degenerating to the value `0`. -/
theorem C9_M_zero :
    (∀ x : Expr, huber.construct x (NumOrExpr.num 0) =
      Except.ok (huber.init x (NumOrExpr.num 0))) ∧
    (∀ (x : LinOp) (shape : List ℕ) (ctr : ℕ),
      (graph_implementation [x] shape [constExpr 0] ctr).1.1 =
        sum_expr [(power_graph_impl [LinOp.varOp ctr shape] shape).1,
          mul_expr (create_const 2 [1, 1])
            (mul_expr (create_const 0 [1, 1])
              (abs_graph_impl [LinOp.varOp (ctr + 1) shape] shape).1)]) ∧
    (∀ x : ℝ, numeric (0 : ℝ) x = 0 ∧
      IsLeast {v : ℝ | ∃ n s : ℝ, n + s = x ∧ v = n ^ 2 + 2 * 0 * |s|}
        (numeric (0 : ℝ) x)) := by
  refine ⟨fun x => rfl, fun x shape ctr => rfl, fun x => ⟨?_, ?_⟩⟩
  · rcases le_or_lt |x| 0 with hx | hx
    · have hx0 : x = 0 := abs_eq_zero.mp (le_antisymm hx (abs_nonneg x))
      rw [numeric_of_abs_le hx, hx0]; norm_num
    · rw [numeric_of_lt_abs hx]; ring
  · exact ⟨numeric_attained 0 x,
      fun v hv => by
        obtain ⟨n, s, hns, rfl⟩ := hv
        exact numeric_le_split 0 x n s le_rfl hns⟩

lemma hasDerivAt_numeric {M x : ℝ} (hM : 0 ≤ M) (hne : |x| ≠ M) :
    HasDerivAt (fun y : ℝ => numeric M y) (grad_val M x) x := by
  rcases lt_or_gt_of_ne hne with hlt | hgt
  · have hopen : IsOpen {y : ℝ | |y| < M} :=
      isOpen_lt continuous_abs continuous_const
    have hev : (fun y : ℝ => numeric M y) =ᶠ[nhds x] fun y => y ^ 2 :=
      Filter.eventually_of_mem (hopen.mem_nhds hlt)
        (fun y hy => numeric_of_abs_le (le_of_lt hy))
    have hd : HasDerivAt (fun y : ℝ => y ^ 2) (2 * x) x := by
      simpa using hasDerivAt_pow 2 x
    have hc := hd.congr_of_eventuallyEq hev
    rwa [grad_val_of_abs_lt hlt]
  · rcases lt_trichotomy x 0 with hx | hx | hx
    · have hxM : x < -M := by
        rw [abs_of_neg hx] at hgt; linarith
      have hev : (fun y : ℝ => numeric M y) =ᶠ[nhds x]
          fun y => -(2 * M) * y - M ^ 2 := by
        refine Filter.eventually_of_mem (isOpen_Iio.mem_nhds hxM)
          (fun y hy => ?_)
        have hyM : y < -M := hy
        have hy0 : y < 0 := lt_of_lt_of_le hyM (by linarith)
        have hya : M < |y| := by rw [abs_of_neg hy0]; linarith
        show numeric M y = -(2 * M) * y - M ^ 2
        rw [numeric_of_lt_abs hya, abs_of_neg hy0]; ring
      have hd : HasDerivAt (fun y : ℝ => -(2 * M) * y - M ^ 2)
          (-(2 * M)) x := by
        simpa using ((hasDerivAt_id x).const_mul (-(2 * M))).sub_const (M ^ 2)
      have hc := hd.congr_of_eventuallyEq hev
      rw [grad_val_of_lt_abs hgt, np_sign, if_pos hx]
      have hcoef : 2 * M * (-1 : ℝ) = -(2 * M) := by ring
      rwa [hcoef]
    · exfalso
      rw [hx, abs_zero] at hgt
      linarith
    · have hxM : M < x := by
        rw [abs_of_pos hx] at hgt; linarith
      have hev : (fun y : ℝ => numeric M y) =ᶠ[nhds x]
          fun y => 2 * M * y - M ^ 2 := by
        refine Filter.eventually_of_mem (isOpen_Ioi.mem_nhds hxM)
          (fun y hy => ?_)
        have hyM : M < y := hy
        have hy0 : 0 < y := lt_of_le_of_lt hM hyM
        have hya : M < |y| := by rw [abs_of_pos hy0]; linarith
        show numeric M y = 2 * M * y - M ^ 2
        rw [numeric_of_lt_abs hya, abs_of_pos hy0]
      have hd : HasDerivAt (fun y : ℝ => 2 * M * y - M ^ 2) (2 * M) x := by
        simpa using ((hasDerivAt_id x).const_mul (2 * M)).sub_const (M ^ 2)
      have hc := hd.congr_of_eventuallyEq hev
      rw [grad_val_of_lt_abs hgt, np_sign, if_neg (not_lt.mpr hx.le),
        if_pos hx]
      have hcoef : 2 * M * (1 : ℝ) = 2 * M := by ring
      rwa [hcoef]

/-- C5: `_grad` returns a single per-argument matrix, diagonal with entry
`2·sign(x)·min(|x|, M)` at each scalar position (row `j`, column `k`
holding the derivative of output `j` with respect to argument `k`); the
entry equals `2x` in the quadratic region `|x| < M` and `2M·sign(x)`
outside; and for `x ≠ 0` away from the knee `|x| = M` it is the true
derivative of the numeric function. -/
theorem C5_subgradient (M : ℝ) (values : List ℝ) (hM : 0 ≤ M) :
    (grad M values).length = 1 ∧
    (∀ j k : Fin values.length,
      ((grad M values).getD 0 0) j k =
        if j = k then 2 * np_sign (values.get j) * min |values.get j| M
        else 0) ∧
    (∀ x : ℝ, |x| < M → grad_val M x = 2 * x) ∧
    (∀ x : ℝ, M < |x| → grad_val M x = 2 * M * np_sign x) ∧
    (∀ x : ℝ, x ≠ 0 → |x| ≠ M →
      HasDerivAt (fun y : ℝ => numeric M y) (grad_val M x) x) := by
  refine ⟨rfl, fun j k => ?_, fun x h => grad_val_of_abs_lt h,
    fun x h => grad_val_of_lt_abs h, fun x _ hne => hasDerivAt_numeric hM hne⟩
  by_cases hjk : j = k <;>
    simp [grad, Matrix.diagonal_apply, hjk, grad_val, mul_assoc]

/-- C5 witness: the hypothesis discharged at `M = 1`,
`values = [2]`. -/
theorem C5_subgradient_witness : (grad (1 : ℝ) [2]).length = 1 :=
  (C5_subgradient 1 [2] (by norm_num)).1

/-- C3 witness: freshness of the two allocated variables at a concrete
allocator state. -/
theorem C3_graph_implementation_witness :
    LinOp.varOp 0 [] ≠ LinOp.varOp 1 [] :=
  (C3_graph_implementation (LinOp.varOp 5 []) [] (constExpr 1) 0).2

/-- C4 witness: the validation failure instantiated at `M = -1`. -/
theorem C4_validation_witness :
    huber.construct (constExpr 0) (NumOrExpr.num (-1)) =
      Except.error "M must be a non-negative scalar constant." :=
  (C4_validation.2.2 (constExpr 0)).1

/-- C9 witness: the numeric value at `M = 0`, `x = 3`. -/
theorem C9_M_zero_witness : numeric (0 : ℝ) 3 = 0 :=
  (C9_M_zero.2.2 3).1

end Huber
